import Mathlib

/-!
Verification of the max-stock-scanner application (src/app.py).

The file shallowly embeds the two core components of the program:
the PTT article/comment extraction logic (parse_ptt_article and friends)
and the technical-indicator computation (calculate_technical_indicators),
plus the link selection (extract_ptt_timestamp / sorted_links) and the
LLM call wrapper (call_gemini_api).

Machine floating point values flowing through the pandas pipeline are
modelled by the type PFloat: an exact rational together with the three
special values inf, ninf and nan, with IEEE-style propagation (division
by zero yields a signed infinity or nan, any operation on nan yields nan,
comparisons with nan are false).  Python strings are modelled as lists of
characters.
-/

/-- Model of a pandas/NumPy double: exact rational plus inf, -inf, nan. -/
inductive PFloat where
  | num (q : ℚ)
  | inf
  | ninf
  | nan
deriving DecidableEq

/-- IEEE-style negation. -/
def pfneg : PFloat → PFloat
  | .num a => .num (-a)
  | .inf => .ninf
  | .ninf => .inf
  | .nan => .nan

/-- IEEE-style addition: nan propagates, inf + (-inf) is nan. -/
def pfadd : PFloat → PFloat → PFloat
  | .num a, .num b => .num (a + b)
  | .num _, .inf => .inf
  | .inf, .num _ => .inf
  | .inf, .inf => .inf
  | .num _, .ninf => .ninf
  | .ninf, .num _ => .ninf
  | .ninf, .ninf => .ninf
  | _, _ => .nan

/-- IEEE-style subtraction. -/
def pfsub (a b : PFloat) : PFloat := pfadd a (pfneg b)

/-- IEEE-style multiplication: 0 * inf is nan. -/
def pfmul : PFloat → PFloat → PFloat
  | .num a, .num b => .num (a * b)
  | .num a, .inf => if 0 < a then .inf else if a < 0 then .ninf else .nan
  | .inf, .num b => if 0 < b then .inf else if b < 0 then .ninf else .nan
  | .num a, .ninf => if 0 < a then .ninf else if a < 0 then .inf else .nan
  | .ninf, .num b => if 0 < b then .ninf else if b < 0 then .inf else .nan
  | .inf, .inf => .inf
  | .inf, .ninf => .ninf
  | .ninf, .inf => .ninf
  | .ninf, .ninf => .inf
  | _, _ => .nan

/-- IEEE-style division as NumPy performs it: finite / 0 is a signed
infinity (nan for 0 / 0), finite / inf is 0, inf / inf is nan. -/
def pfdiv : PFloat → PFloat → PFloat
  | .num a, .num b =>
      if b = 0 then (if a = 0 then .nan else if 0 < a then .inf else .ninf)
      else .num (a / b)
  | .num _, .inf => .num 0
  | .num _, .ninf => .num 0
  | .inf, .num b => if 0 ≤ b then .inf else .ninf
  | .ninf, .num b => if 0 ≤ b then .ninf else .inf
  | _, _ => .nan

/-- Float strict comparison; any comparison involving nan is false. -/
def pflt : PFloat → PFloat → Bool
  | .num a, .num b => a < b
  | .num _, .inf => true
  | .ninf, .num _ => true
  | .ninf, .inf => true
  | _, _ => false

/-- Float minimum with nan poisoning (as in a pandas rolling window with
min_periods equal to the window size, where a nan makes the result nan). -/
def pfmin : PFloat → PFloat → PFloat
  | .nan, _ => .nan
  | _, .nan => .nan
  | .num a, .num b => .num (min a b)
  | .ninf, _ => .ninf
  | _, .ninf => .ninf
  | .inf, x => x
  | x, .inf => x

/-- Float maximum with nan poisoning. -/
def pfmax : PFloat → PFloat → PFloat
  | .nan, _ => .nan
  | _, .nan => .nan
  | .num a, .num b => .num (max a b)
  | .inf, _ => .inf
  | _, .inf => .inf
  | .ninf, x => x
  | x, .ninf => x

/-- Sum of a list of floats (nan propagates). -/
def pfsum (l : List PFloat) : PFloat := l.foldr pfadd (.num 0)

/-- Python int() truncation toward zero of an exact rational. -/
def int_of (q : ℚ) : ℤ := if 0 ≤ q then ⌊q⌋ else ⌈q⌉

/-- Direction tag of the volume report line in the technical report:
the branch of the conditional expression building vol_str in
calculate_technical_indicators. -/
inductive VolDir where
  | increase
  | decrease
deriving DecidableEq

/-- Embedding of the vol_str conditional of calculate_technical_indicators:
given vol_change (today volume minus yesterday volume), the report text is
"增加 {int(vol_change/1000)}" when vol_change > 0 and otherwise
"減少 {int(abs(vol_change)/1000)}"; we record the branch taken and the
printed lot count. -/
def vol_str (vol_change : ℚ) : VolDir × ℤ :=
  if 0 < vol_change then (VolDir.increase, int_of (vol_change / 1000))
  else (VolDir.decrease, int_of (|vol_change| / 1000))

/-- The KD cross signal of the technical report. -/
inductive KdSig where
  | golden
  | death
  | noCross
deriving DecidableEq

/-- Embedding of the KD cross-signal branch of
calculate_technical_indicators: golden cross when yesterday K < yesterday D
and today K > today D, death cross when yesterday K > yesterday D and today
K < today D, otherwise no signal (float comparisons, so nan never fires a
branch). -/
def crossSig (yK yD tK tD : PFloat) : KdSig :=
  if pflt yK yD && pflt tD tK then KdSig.golden
  else if pflt yD yK && pflt tK tD then KdSig.death
  else KdSig.noCross

/-- The qualitative RSI band of the technical report. -/
inductive RsiBand where
  | overheated
  | oversold
  | neutralBand
deriving DecidableEq

/-- Embedding of the RSI band conditional: 過熱 when RSI > 70,
超賣 when RSI < 30, otherwise 中性. -/
def rsiBandOf (x : PFloat) : RsiBand :=
  if pflt (.num 70) x then RsiBand.overheated
  else if pflt x (.num 30) then RsiBand.oversold
  else RsiBand.neutralBand

/-! ### The price series pipeline of calculate_technical_indicators -/

/-- One daily bar of the yfinance history table.  The code reads the
columns Close, Low, High and Volume; the raw table stores finite machine
numbers, modelled as exact rationals. -/
structure Bar where
  high : ℚ
  low : ℚ
  close : ℚ
  volume : ℚ
deriving DecidableEq

/-- The Close column. -/
def closeCol (df : List Bar) : List PFloat := df.map (fun b => .num b.close)

/-- The Low column. -/
def lowCol (df : List Bar) : List PFloat := df.map (fun b => .num b.low)

/-- The High column. -/
def highCol (df : List Bar) : List PFloat := df.map (fun b => .num b.high)

/-- Series.diff(): first entry nan, then consecutive differences. -/
def diffList : List PFloat → List PFloat
  | [] => []
  | x :: rest => .nan :: List.zipWith pfsub rest (x :: rest)

/-- Series.rolling(window=w).mean() with the default min_periods: nan for
the first w-1 positions, afterwards the mean of the trailing w entries. -/
def rollingMean (w : Nat) (xs : List PFloat) : List PFloat :=
  (List.range xs.length).map (fun i =>
    if i + 1 < w then PFloat.nan
    else pfdiv (pfsum ((xs.take (i + 1)).drop (i + 1 - w))) (.num w))

/-- Minimum of a window (nan if the window is empty). -/
def pfminList : List PFloat → PFloat
  | [] => .nan
  | x :: rest => rest.foldl pfmin x

/-- Maximum of a window (nan if the window is empty). -/
def pfmaxList : List PFloat → PFloat
  | [] => .nan
  | x :: rest => rest.foldl pfmax x

/-- Series.rolling(window=w).min(). -/
def rollingMin (w : Nat) (xs : List PFloat) : List PFloat :=
  (List.range xs.length).map (fun i =>
    if i + 1 < w then PFloat.nan
    else pfminList ((xs.take (i + 1)).drop (i + 1 - w)))

/-- Series.rolling(window=w).max(). -/
def rollingMax (w : Nat) (xs : List PFloat) : List PFloat :=
  (List.range xs.length).map (fun i =>
    if i + 1 < w then PFloat.nan
    else pfmaxList ((xs.take (i + 1)).drop (i + 1 - w)))

/-- One point of Series.ewm(com=c).mean() with the pandas defaults
(adjust=True, ignore_na=False): value at the last position of the prefix
x_0..x_t is the weighted mean with weights beta^(t-j), beta = c/(c+1),
where nan entries contribute to neither numerator nor denominator; nan
when no valid entry exists yet. -/
def ewmAt (com : ℚ) (pre : List PFloat) : PFloat :=
  let beta := com / (com + 1)
  let n := pre.length
  let wts := (pre.zip (List.range n)).map (fun pj =>
    match pj.1 with
    | PFloat.nan => (0 : ℚ)
    | _ => beta ^ (n - 1 - pj.2))
  let numer := pfsum ((pre.zip (List.range n)).map (fun pj =>
    match pj.1 with
    | PFloat.nan => PFloat.num 0
    | x => pfmul (.num (beta ^ (n - 1 - pj.2))) x))
  let denom := wts.foldr (· + ·) (0 : ℚ)
  if denom = 0 then PFloat.nan else pfdiv numer (.num denom)

/-- Series.ewm(com=c).mean(). -/
def ewmMean (com : ℚ) (xs : List PFloat) : List PFloat :=
  (List.range xs.length).map (fun t => ewmAt com (xs.take (t + 1)))

/-- delta = df Close .diff() -/
def deltaSeries (df : List Bar) : List PFloat := diffList (closeCol df)

/-- gain = delta.where(delta gt 0, 0): elementwise, nan compares false and
becomes 0, exactly as in pandas. -/
def gainRaw (df : List Bar) : List PFloat :=
  (deltaSeries df).map (fun d => if pflt (.num 0) d then d else .num 0)

/-- loss = -delta.where(delta lt 0, 0). -/
def lossRaw (df : List Bar) : List PFloat :=
  (deltaSeries df).map (fun d => pfneg (if pflt d (.num 0) then d else .num 0))

/-- gain.rolling(window=14).mean() -/
def gainMean (df : List Bar) : List PFloat := rollingMean 14 (gainRaw df)

/-- loss.rolling(window=14).mean() -/
def lossMean (df : List Bar) : List PFloat := rollingMean 14 (lossRaw df)

/-- rs = gain / loss (elementwise float division). -/
def rsSeries (df : List Bar) : List PFloat :=
  List.zipWith pfdiv (gainMean df) (lossMean df)

/-- RSI = 100 - (100 / (1 + rs)). -/
def rsiSeries (df : List Bar) : List PFloat :=
  (rsSeries df).map (fun r => pfsub (.num 100) (pfdiv (.num 100) (pfadd (.num 1) r)))

/-- low_min = Low.rolling(9).min() -/
def lowMinSeries (df : List Bar) : List PFloat := rollingMin 9 (lowCol df)

/-- high_max = High.rolling(9).max() -/
def highMaxSeries (df : List Bar) : List PFloat := rollingMax 9 (highCol df)

/-- RSV = (Close - low_min) / (high_max - low_min) * 100 -/
def rsvSeries (df : List Bar) : List PFloat :=
  List.zipWith (fun a b => pfmul (pfdiv a b) (.num 100))
    (List.zipWith pfsub (closeCol df) (lowMinSeries df))
    (List.zipWith pfsub (highMaxSeries df) (lowMinSeries df))

/-- K = RSV.ewm(com=2).mean() -/
def kSeries (df : List Bar) : List PFloat := ewmMean 2 (rsvSeries df)

/-- D = K.ewm(com=2).mean() -/
def dSeries (df : List Bar) : List PFloat := ewmMean 2 (kSeries df)

/-- Value at the last row (df.iloc[-1]) of a derived column. -/
def lastD (xs : List PFloat) : PFloat := xs.getD (xs.length - 1) PFloat.nan

/-- Value at the second-to-last row (df.iloc[-2]) of a derived column. -/
def secondLastD (xs : List PFloat) : PFloat := xs.getD (xs.length - 2) PFloat.nan

/-- t MA5 -/
def ma5Last (df : List Bar) : PFloat := lastD (rollingMean 5 (closeCol df))

/-- t MA20 -/
def ma20Last (df : List Bar) : PFloat := lastD (rollingMean 20 (closeCol df))

/-- t MA60 -/
def ma60Last (df : List Bar) : PFloat := lastD (rollingMean 60 (closeCol df))

/-- t RSI -/
def rsiLast (df : List Bar) : PFloat := lastD (rsiSeries df)

/-- gain.rolling(14).mean() at the last row. -/
def gainLast (df : List Bar) : PFloat := lastD (gainMean df)

/-- loss.rolling(14).mean() at the last row. -/
def lossLast (df : List Bar) : PFloat := lastD (lossMean df)

/-- t K -/
def kLast (df : List Bar) : PFloat := lastD (kSeries df)

/-- t D -/
def dLast (df : List Bar) : PFloat := lastD (dSeries df)

/-- y K -/
def kPrev (df : List Bar) : PFloat := secondLastD (kSeries df)

/-- y D -/
def dPrev (df : List Bar) : PFloat := secondLastD (dSeries df)

/-- The yesterday-dependent part of the report (the y_info block plus the
lot count): change, percent change, and the volume line. -/
structure YInfo where
  change : ℚ
  pct : PFloat
  volDir : VolDir
  volLots : ℤ
deriving DecidableEq

/-- y_info of the report: change = t Close - y Close,
pct = change / y Close * 100, and the volume delta line. -/
def mkYInfo (tbar ybar : Bar) : YInfo :=
  { change := tbar.close - ybar.close
    pct := pfmul (pfdiv (.num (tbar.close - ybar.close)) (.num ybar.close)) (.num 100)
    volDir := (vol_str (tbar.volume - ybar.volume)).1
    volLots := (vol_str (tbar.volume - ybar.volume)).2 }

/-- The data embedded in the textual report returned by
calculate_technical_indicators (structured form of the f-string). -/
structure TechReport where
  fetchTime : List Char
  close : ℚ
  yData : Option YInfo
  todayVolLots : ℤ
  ma5 : PFloat
  ma20 : PFloat
  ma60 : PFloat
  aboveMA5 : Bool
  rsi : PFloat
  rsiBand : RsiBand
  k : PFloat
  d : PFloat
  kdSig : KdSig
deriving DecidableEq

/-- The error text returned when the series is empty or shorter than 20. -/
def noDataMsg : List Char := "❌ 無法獲取股價資料 (可能是代號錯誤)".toList

/-- The report assembled by calculate_technical_indicators once the
length gate has passed: tbar is df.iloc[-1] and rest the remaining rows in
reverse order, so the yesterday block (guarded by len(df) > 1 in the
code) is present exactly when rest is nonempty. -/
def buildReport (fetch_time : List Char) (df : List Bar) (tbar : Bar) (rest : List Bar) :
    TechReport :=
  match rest with
  | [] =>
    { fetchTime := fetch_time
      close := tbar.close
      yData := none
      todayVolLots := int_of (tbar.volume / 1000)
      ma5 := ma5Last df
      ma20 := ma20Last df
      ma60 := ma60Last df
      aboveMA5 := pflt (ma5Last df) (.num tbar.close)
      rsi := rsiLast df
      rsiBand := rsiBandOf (rsiLast df)
      k := kLast df
      d := dLast df
      kdSig := KdSig.noCross }
  | ybar :: _ =>
    { fetchTime := fetch_time
      close := tbar.close
      yData := some (mkYInfo tbar ybar)
      todayVolLots := int_of (tbar.volume / 1000)
      ma5 := ma5Last df
      ma20 := ma20Last df
      ma60 := ma60Last df
      aboveMA5 := pflt (ma5Last df) (.num tbar.close)
      rsi := rsiLast df
      rsiBand := rsiBandOf (rsiLast df)
      k := kLast df
      d := dLast df
      kdSig := crossSig (kPrev df) (dPrev df) (kLast df) (dLast df) }

/-- Embedding of calculate_technical_indicators over an already-fetched
daily bar table df (most recent bar last) and the wall-clock fetch time
string.  Mirrors src/app.py: the length gate, the rolling indicators, the
yesterday comparison (guarded by len(df) > 1) and the KD cross signal. -/
def calculate_technical_indicators (fetch_time : List Char) (df : List Bar) :
    Except (List Char) TechReport :=
  if df.isEmpty || df.length < 20 then Except.error noDataMsg
  else
    match df.reverse with
    | [] => Except.error noDataMsg
    | tbar :: rest => Except.ok (buildReport fetch_time df tbar rest)

/-- Boolean success test for an Except result. -/
def isOkE {ε α : Type} : Except ε α → Bool
  | .ok _ => true
  | .error _ => false

/-- Extract the ok value of an Except result, with a fallback. -/
def getOkD {ε α : Type} (e : Except ε α) (d : α) : α :=
  match e with
  | .ok a => a
  | .error _ => d

/-- A flat 20-bar series: every day the same prices and volume. -/
def flatSeries : List Bar := List.replicate 20 { high := 1, low := 1, close := 1, volume := 1000 }

/-- A 19-bar series (one bar short of the indicator precondition). -/
def bars19 : List Bar := List.replicate 19 { high := 1, low := 1, close := 1, volume := 1000 }

/-! ### The PTT comment parsing of parse_ptt_article -/

/-- Python str whitespace (the characters occurring in PTT fields). -/
def isPyWs (c : Char) : Bool :=
  c = ' ' || c = '\t' || c = '\n' || c = '\r' || c = '\x0b' || c = '\x0c'

/-- Python str.strip(): drop leading and trailing whitespace. -/
def stripWs (s : List Char) : List Char :=
  ((s.dropWhile isPyWs).reverse.dropWhile isPyWs).reverse

/-- Helper for Python str.split(): accumulate the current word. -/
def splitWsAux (cur : List Char) : List Char → List (List Char)
  | [] => if cur = [] then [] else [cur.reverse]
  | c :: rest =>
    if isPyWs c then
      if cur = [] then splitWsAux [] rest else cur.reverse :: splitWsAux [] rest
    else splitWsAux (c :: cur) rest

/-- Python str.split() with no argument: split on whitespace runs,
discarding empty pieces. -/
def splitWs (s : List Char) : List (List Char) := splitWsAux [] s

/-- The two-character separator ": " removed from each comment content
by content.replace(": ", ""). -/
def sepCS : List Char := [':', ' ']

/-- Python content.replace(": ", ""): remove every non-overlapping
occurrence of the two-character separator, scanning left to right. -/
def removeColonSpace : List Char → List Char
  | [] => []
  | c :: rest =>
    match rest with
    | [] => [c]
    | c2 :: rest2 =>
      if c = ':' ∧ c2 = ' ' then removeColonSpace rest2
      else c :: removeColonSpace (c2 :: rest2)

/-- Boolean prefix test on character lists. -/
def startsWithSeq (pre s : List Char) : Bool := pre.isPrefixOf s

/-- Whether pat occurs as a contiguous subsequence of s. -/
def containsSeq (pat : List Char) : List Char → Bool
  | [] => pat.isEmpty
  | c :: rest => pat.isPrefixOf (c :: rest) || containsSeq pat rest

/-- One div.push block of a PTT article page.  Each field is the text of
the corresponding child span when that span exists (push-tag, push-userid,
push-content, push-ipdatetime). -/
structure PushDiv where
  tag : Option (List Char)
  userid : Option (List Char)
  content : Option (List Char)
  ipdatetime : Option (List Char)
deriving DecidableEq

/-- p.text of a push div in BeautifulSoup: the concatenation of the text
of its child spans. -/
def divText (p : PushDiv) : List Char :=
  (p.tag.getD []) ++ (p.userid.getD []) ++ (p.content.getD []) ++ (p.ipdatetime.getD [])

/-- p_cnt of parse_ptt_article: the number of push divs whose text
contains the character 推 anywhere. -/
def p_cnt (pushes : List PushDiv) : Nat :=
  pushes.countP (fun p => (divText p).contains '推')

/-- b_cnt of parse_ptt_article: the number of push divs whose text
contains the character 噓 anywhere. -/
def b_cnt (pushes : List PushDiv) : Nat :=
  pushes.countP (fun p => (divText p).contains '噓')

/-- The placeholder written when the ip/datetime field is empty. -/
def noTimeL : List Char := ['N', 'o', '_', 'T', 'i', 'm', 'e']

/-- clean_time of the comment loop: whitespace-collapsed ip/datetime text,
or the placeholder when the span is missing or its text is empty. -/
def cleanTime (p : PushDiv) : List Char :=
  let raw := match p.ipdatetime with
    | some t => stripWs t
    | none => []
  let ct := List.intercalate [' '] (splitWs raw)
  if ct = [] then noTimeL else ct

/-- The comment line appended to comments_list, rendered from the spans of
one push div: the f-string [clean_time] tag user : content (content with
every ": " removed).  Defined for every div; only divs whose tag, userid
and content spans all exist ever reach this rendering. -/
def renderComment (p : PushDiv) : List Char :=
  ('[' :: cleanTime p) ++
  (']' :: ' ' :: stripWs (p.tag.getD [])) ++
  (' ' :: stripWs (p.userid.getD [])) ++
  (' ' :: ':' :: ' ' :: removeColonSpace (stripWs (p.content.getD [])))

/-- The body of the comment loop: a missing push-tag, push-userid or
push-content span raises (find(...) returns None and .text fails), the
except clause skips the div; a missing push-ipdatetime span does not
raise because it is guarded by a conditional expression. -/
def commentLine (p : PushDiv) : Option (List Char) :=
  match p.tag, p.userid, p.content with
  | some _, some _, some _ => some (renderComment p)
  | _, _, _ => none

/-- comments_list of parse_ptt_article: the loop over the push divs with
the except-continue skip. -/
def comments_list (pushes : List PushDiv) : List (List Char) :=
  pushes.filterMap commentLine

/-- A div is complete when the three required spans exist. -/
def completeB (p : PushDiv) : Bool :=
  p.tag.isSome && p.userid.isSome && p.content.isSome

/-- Formalisation of the claim's classification rule, following the spec's
words: a block is tallied as push exactly when its leading stance marker
(the stripped push-tag text) is the agree literal. -/
def specLeadPushCount (pushes : List PushDiv) : Nat :=
  pushes.countP (fun p => stripWs (p.tag.getD []) == ['推'])

/-- Formalisation of the claim's classification rule for the boo tally. -/
def specLeadBooCount (pushes : List PushDiv) : Nat :=
  pushes.countP (fun p => stripWs (p.tag.getD []) == ['噓'])

/-- A marker character occurs nowhere in the given text. -/
def noMarkerIn (l : List Char) : Bool :=
  !(l.contains '推') && !(l.contains '噓')

/-- A push div whose spans are well-behaved: the tag is exactly one stance
marker, and no stance-marker literal occurs in the userid, content or
ip/datetime text. -/
def cleanBlock (p : PushDiv) : Bool :=
  (p.tag == some ['推'] || p.tag == some ['噓'] || p.tag == some ['→']) &&
  noMarkerIn (p.userid.getD []) && noMarkerIn (p.content.getD []) &&
  noMarkerIn (p.ipdatetime.getD [])

/-- Formalisation of the claim's text rule, following the spec's words:
only a fixed leading ": " separator is stripped from the content. -/
def specStripLeadingSep (s : List Char) : List Char :=
  if sepCS.isPrefixOf s then s.drop 2 else s

/-! ### Link selection: extract_ptt_timestamp and sorted_links -/

/-- Decimal value of a digit run. -/
def digitsVal (ds : List Char) : Nat :=
  ds.foldl (fun a c => a * 10 + (c.toNat - 48)) 0

/-- Embedding of extract_ptt_timestamp: re.search for M dot digits in the
url; the value of the (greedy) digit run after the leftmost match, else 0. -/
def extract_ptt_timestamp : List Char → Nat
  | [] => 0
  | c :: rest =>
    if c = 'M' then
      match rest with
      | c2 :: d :: ds =>
        if c2 = '.' ∧ d.isDigit then digitsVal ((d :: ds).takeWhile Char.isDigit)
        else extract_ptt_timestamp rest
      | _ => extract_ptt_timestamp rest
    else extract_ptt_timestamp rest

/-- Whether the url contains an M dot digits pattern at all (the regex
has a match), mirroring the scan of extract_ptt_timestamp. -/
def hasTimestampPat : List Char → Bool
  | [] => false
  | c :: rest =>
    if c = 'M' then
      match rest with
      | c2 :: d :: _ => (decide (c2 = '.') && d.isDigit) || hasTimestampPat rest
      | _ => hasTimestampPat rest
    else hasTimestampPat rest

/-- The descending recency order used by sorted(..., reverse=True). -/
def linkOrder (a b : List Char) : Prop :=
  extract_ptt_timestamp b ≤ extract_ptt_timestamp a

instance : DecidableRel linkOrder := fun a b =>
  Nat.decLe (extract_ptt_timestamp b) (extract_ptt_timestamp a)

/-- Embedding of sorted_links: deduplicate the gathered links (a Python
set), sort descending by the url-embedded timestamp, truncate to the
configured count. -/
def sorted_links (ptt_links : List (List Char)) (limit_ptt : Nat) : List (List Char) :=
  (List.insertionSort linkOrder ptt_links.dedup).take limit_ptt

/-! ### The LLM call: call_gemini_api -/

/-- An HTTP response as seen by the code: status code and the payload
text already extracted from the JSON body. -/
structure HttpResp where
  status : Nat
  body : List Char
deriving DecidableEq

/-- Embedding of call_gemini_api for a fixed resolved model name: the
function performs exactly one POST (modelled by the oracle post, keyed by
model name); a 200 yields the payload, any other status raises
"API Error {status}".  The second component records the requests made. -/
def call_gemini_api (post : List Char → HttpResp) (model_name : List Char) :
    Except (List Char) (List Char) × List (List Char) :=
  if (post model_name).status = 200 then
    (Except.ok (post model_name).body, [model_name])
  else
    (Except.error ("API Error ".toList ++ Nat.toDigits 10 (post model_name).status),
     [model_name])

/-! ### Concrete inputs used by counterexamples and witnesses -/

/-- The claim's boundedness predicate for the reported RSI value: a finite
float lying in the closed interval [0, 100]. -/
def rsiInRange : PFloat → Bool
  | .num q => decide (0 ≤ q) && decide (q ≤ 100)
  | _ => false

/-- A neutral-marker push div whose comment text mentions 推. -/
def cexNeutralDiv : PushDiv :=
  { tag := some ['→'], userid := some ['u', '1'],
    content := some [':', ' ', '推'], ipdatetime := some ['i', 'p'] }

/-- A push-marker div whose comment text mentions 噓. -/
def cexBothDiv : PushDiv :=
  { tag := some ['推'], userid := some ['u', '2'],
    content := some [':', ' ', '噓'], ipdatetime := some ['i', 'p'] }

/-- A clean push div with the given tag: marker literals appear only as
the tag itself. -/
def mkCleanDiv (tg : List Char) : PushDiv :=
  { tag := some tg, userid := some ['u'],
    content := some [':', ' ', 'x'], ipdatetime := some ['i', 'p'] }

/-- A page with 3 agree, 2 disagree and 4 neutral comment blocks. -/
def exNinePage : List PushDiv :=
  [mkCleanDiv ['推'], mkCleanDiv ['推'], mkCleanDiv ['推'],
   mkCleanDiv ['噓'], mkCleanDiv ['噓'],
   mkCleanDiv ['→'], mkCleanDiv ['→'], mkCleanDiv ['→'], mkCleanDiv ['→']]

/-- A complete push div whose ip/datetime span is absent. -/
def noTimeDiv : PushDiv :=
  { tag := some ['推'], userid := some ['a'],
    content := some [':', ' ', 'x'], ipdatetime := none }

/-- A push div lacking the push-userid span. -/
def noUserDiv : PushDiv :=
  { tag := some ['推'], userid := none,
    content := some [':', ' ', 'x'], ipdatetime := some ['i', 'p'] }

/-- An oracle that always answers with a rate-limit status. -/
def post429 : List Char → HttpResp := fun _ => { status := 429, body := [] }

/-- An oracle that always answers 200 with a fixed payload. -/
def post200 : List Char → HttpResp := fun _ => { status := 200, body := "ok".toList }

/-- The links of the spec's ordering example. -/
def cexLinks : List (List Char) :=
  ["https://www.ptt.cc/bbs/Stock/M.300.A.AAA.html".toList,
   "https://www.ptt.cc/bbs/Stock/M.100.A.BBB.html".toList,
   "https://www.ptt.cc/bbs/Stock/M.200.A.CCC.html".toList]

/-- A throwaway report used as the fallback of getOkD. -/
def dummyReport : TechReport :=
  { fetchTime := [], close := 0, yData := none, todayVolLots := 0,
    ma5 := .nan, ma20 := .nan, ma60 := .nan, aboveMA5 := false,
    rsi := .nan, rsiBand := RsiBand.neutralBand, k := .nan, d := .nan,
    kdSig := KdSig.noCross }

/-- A 20-bar series whose price steps up halfway, used to instantiate
theorems with hypotheses at a concrete input. -/
def varSeries : List Bar :=
  List.replicate 10 { high := 2, low := 1, close := 1, volume := 1000 } ++
  List.replicate 10 { high := 3, low := 1, close := 2, volume := 1100 }

/-! ## Helper lemmas -/

theorem gateBar (df : List Bar) :
    (df.isEmpty || decide (df.length < 20)) = true ↔ df.length < 20 := by
  cases df <;> simp

theorem calc_ok_inv {ft : List Char} {df : List Bar} {r : TechReport}
    (h : calculate_technical_indicators ft df = Except.ok r) :
    20 ≤ df.length ∧
      ∃ tbar rest, df.reverse = tbar :: rest ∧ r = buildReport ft df tbar rest := by
  unfold calculate_technical_indicators at h
  split at h
  · exact absurd h (by simp)
  · rename_i hc
    have hlen : 20 ≤ df.length := by
      by_contra hlt
      exact hc ((gateBar df).mpr (by omega))
    refine ⟨hlen, ?_⟩
    cases hrev : df.reverse with
    | nil =>
      rw [hrev] at h
      exact absurd h (by simp)
    | cons tbar rest =>
      rw [hrev] at h
      simp only [Except.ok.injEq] at h
      exact ⟨tbar, rest, rfl, h.symm⟩

/-! ## Claims -/

/-- Claim C4: a price series with fewer than 20 daily bars (19 bars, the
empty series) makes calculate_technical_indicators return the
insufficient-data outcome and no snapshot, while a series with at least
20 bars (including exactly 20) produces a report. -/
theorem claim_C4 (ft : List Char) (df : List Bar) :
    (df.length < 20 → calculate_technical_indicators ft df = Except.error noDataMsg) ∧
    (20 ≤ df.length → isOkE (calculate_technical_indicators ft df) = true) := by
  constructor
  · intro hlt
    unfold calculate_technical_indicators
    rw [if_pos ((gateBar df).mpr hlt)]
  · intro hge
    unfold calculate_technical_indicators
    rw [if_neg (fun hc => by have := (gateBar df).mp hc; omega)]
    cases hrev : df.reverse with
    | nil =>
      exfalso
      have := congrArg List.length hrev
      simp only [List.length_reverse, List.length_nil] at this
      omega
    | cons tbar rest => simp [isOkE]

theorem claim_C4_witness :
    calculate_technical_indicators [] bars19 = Except.error noDataMsg ∧
    isOkE (calculate_technical_indicators [] flatSeries) = true :=
  ⟨(claim_C4 [] bars19).1 (by decide),
   (claim_C4 [] flatSeries).2 (by decide)⟩

/-- Claim C5: computing the indicator snapshot twice from the identical
input price series yields identical output; every numeric field of the
report is a deterministic function of the raw series alone (the only
field that can differ between two runs is the wall-clock fetch time,
which is not part of the snapshot). -/
theorem claim_C5 (ft1 ft2 : List Char) (df : List Bar) (r1 r2 : TechReport)
    (h1 : calculate_technical_indicators ft1 df = Except.ok r1)
    (h2 : calculate_technical_indicators ft2 df = Except.ok r2) :
    r1.close = r2.close ∧ r1.yData = r2.yData ∧ r1.todayVolLots = r2.todayVolLots ∧
    r1.ma5 = r2.ma5 ∧ r1.ma20 = r2.ma20 ∧ r1.ma60 = r2.ma60 ∧
    r1.aboveMA5 = r2.aboveMA5 ∧ r1.rsi = r2.rsi ∧ r1.rsiBand = r2.rsiBand ∧
    r1.k = r2.k ∧ r1.d = r2.d ∧ r1.kdSig = r2.kdSig := by
  obtain ⟨-, t1, rest1, hrev1, hr1⟩ := calc_ok_inv h1
  obtain ⟨-, t2, rest2, hrev2, hr2⟩ := calc_ok_inv h2
  rw [hrev1] at hrev2
  obtain ⟨rfl, rfl⟩ : t1 = t2 ∧ rest1 = rest2 := by
    exact ⟨(List.cons.injEq _ _ _ _ ▸ hrev2).1, (List.cons.injEq _ _ _ _ ▸ hrev2).2⟩
  subst hr1
  subst hr2
  cases rest1 <;> simp [buildReport]

theorem claim_C5_witness :
    (getOkD (calculate_technical_indicators ['a'] varSeries) dummyReport).rsi =
      (getOkD (calculate_technical_indicators ['b'] varSeries) dummyReport).rsi :=
  (claim_C5 ['a'] ['b'] varSeries _ _ (by with_unfolding_all rfl)
    (by with_unfolding_all rfl)).2.2.2.2.2.2.2.1

/-- Claim C9: for a series of at least 2 bars the cross signal is
GoldenCross exactly when yesterday K < yesterday D and today K > today D,
DeathCross exactly when yesterday K > yesterday D and today K < today D,
and no signal otherwise; the report consults only the last two K/D
entries (df.iloc[-1] and df.iloc[-2]). -/
theorem claim_C9 (yk yd tk td : ℚ) :
    (crossSig (.num yk) (.num yd) (.num tk) (.num td) = KdSig.golden ↔ yk < yd ∧ td < tk) ∧
    (crossSig (.num yk) (.num yd) (.num tk) (.num td) = KdSig.death ↔ yd < yk ∧ tk < td) ∧
    (¬(yk < yd ∧ td < tk) → ¬(yd < yk ∧ tk < td) →
      crossSig (.num yk) (.num yd) (.num tk) (.num td) = KdSig.noCross) ∧
    (∀ (ft : List Char) (df : List Bar) (r : TechReport),
      calculate_technical_indicators ft df = Except.ok r → 2 ≤ df.length →
      r.kdSig = crossSig (kPrev df) (dPrev df) (kLast df) (dLast df)) := by
  refine ⟨?_, ?_, ?_, ?_⟩
  · constructor
    · intro he
      unfold crossSig at he
      split_ifs at he with h1 h2
      simpa [pflt] using h1
    · intro hc
      unfold crossSig
      rw [if_pos (by simpa [pflt] using hc)]
  · constructor
    · intro he
      unfold crossSig at he
      split_ifs at he with h1 h2
      simpa [pflt] using h2
    · intro hc
      unfold crossSig
      have hng : ¬(pflt (PFloat.num yk) (PFloat.num yd) && pflt (PFloat.num td) (PFloat.num tk)) = true := by
        simp only [pflt, Bool.and_eq_true, decide_eq_true_eq, not_and]
        intro h
        linarith [hc.1]
      rw [if_neg hng, if_pos (by simpa [pflt] using hc)]
  · intro hng hnd
    unfold crossSig
    split_ifs with h1 h2
    · exact absurd (by simpa [pflt] using h1) hng
    · exact absurd (by simpa [pflt] using h2) hnd
    · rfl
  · intro ft df r h hlen
    obtain ⟨hlen20, tbar, rest, hrev, hr⟩ := calc_ok_inv h
    cases rest with
    | nil =>
      exfalso
      have := congrArg List.length hrev
      simp only [List.length_reverse, List.length_cons, List.length_nil] at this
      omega
    | cons ybar rs =>
      subst hr
      simp [buildReport]

theorem claim_C9_witness :
    crossSig (.num 10) (.num 12) (.num 13) (.num 11) = KdSig.golden :=
  (claim_C9 10 12 13 11).1.mpr (by norm_num)

/-- Claim C10: the volume line of the report uses the increase wording
exactly when today's volume is strictly greater than yesterday's; when the
two volumes are equal the line falls into the decrease branch and reports
a decrease of 0 lots. -/
theorem claim_C10 (tv yv : ℚ) :
    ((vol_str (tv - yv)).1 = VolDir.increase ↔ yv < tv) ∧
    (tv = yv → vol_str (tv - yv) = (VolDir.decrease, 0)) := by
  constructor
  · unfold vol_str
    split_ifs with h
    · exact iff_of_true rfl (by linarith)
    · exact iff_of_false (by simp) (fun hlt => h (by linarith))
  · intro he
    subst he
    simp only [sub_self, vol_str, lt_irrefl, if_false, abs_zero, zero_div]
    norm_num [int_of]

theorem claim_C10_witness : vol_str ((5 : ℚ) - 5) = (VolDir.decrease, 0) :=
  (claim_C10 5 5).2 rfl

/-- Claim C3 (counterexample): with an oracle that always answers a
rate-limit status, call_gemini_api issues exactly one request and
surfaces the error at once, so no retry against a secondary model
happens. -/
theorem claim_C3_counterexample :
    (call_gemini_api post429 ("gemini-1.5-pro".toList)).2.length = 1 ∧
    (call_gemini_api post429 ("gemini-1.5-pro".toList)).1 =
      Except.error ("API Error 429".toList) := by
  constructor <;> rfl

/-- Claim C3 (amended): the LLM call issues exactly one request whatever
the outcome; a 200 yields the payload and any other status (including a
rate limit) is surfaced immediately as "API Error {status}" with no retry
of any failure kind. -/
theorem claim_C3_amended (post : List Char → HttpResp) (m : List Char) :
    (call_gemini_api post m).2 = [m] ∧
    ((post m).status = 200 → (call_gemini_api post m).1 = Except.ok (post m).body) ∧
    ((post m).status ≠ 200 →
      (call_gemini_api post m).1 =
        Except.error ("API Error ".toList ++ Nat.toDigits 10 (post m).status)) := by
  unfold call_gemini_api
  refine ⟨?_, ?_, ?_⟩
  · split_ifs <;> rfl
  · intro h
    rw [if_pos h]
  · intro h
    rw [if_neg h]

theorem claim_C3_witness :
    (call_gemini_api post200 ['m']).1 = Except.ok ("ok".toList) :=
  (claim_C3_amended post200 ['m']).2.1 rfl

theorem extract_eq_zero_of_no_pat :
    ∀ s : List Char, hasTimestampPat s = false → extract_ptt_timestamp s = 0 := by
  intro s
  induction s with
  | nil => intro _; rfl
  | cons c rest ih =>
    intro h
    unfold hasTimestampPat at h
    unfold extract_ptt_timestamp
    by_cases hc : c = 'M'
    · rw [if_pos hc] at h ⊢
      match rest, h, ih with
      | [], h, ih => rfl
      | [c2], h, ih => exact ih h
      | c2 :: d :: ds, h, ih =>
        simp only [Bool.or_eq_false_iff] at h
        have hcond : ¬(c2 = '.' ∧ d.isDigit = true) := by
          rintro ⟨hc2, hd⟩
          have hb := h.1
          rw [hc2, hd] at hb
          simp at hb
        show (if c2 = '.' ∧ d.isDigit = true then
            digitsVal (List.takeWhile Char.isDigit (d :: ds))
          else extract_ptt_timestamp (c2 :: d :: ds)) = 0
        rw [if_neg hcond]
        exact ih h.2
    · rw [if_neg hc] at h ⊢
      exact ih h

/-- Claim C8: link selection deduplicates the gathered urls, sorts them
descending by the url-embedded numeric timestamp (a url with no such
pattern gets key 0 and sorts last), and takes the first N (N bounded
1..50); on the spec's example with embedded timestamps 300, 100, 200 and
limit 2 the selection is the 300-link then the 200-link. -/
theorem claim_C8 (links : List (List Char)) (limit : Nat)
    (hlo : 1 ≤ limit) (hhi : limit ≤ 50) :
    List.Sorted linkOrder (List.insertionSort linkOrder links.dedup) ∧
    (List.insertionSort linkOrder links.dedup).Perm links.dedup ∧
    links.dedup.Nodup ∧
    (∀ u, u ∈ links.dedup ↔ u ∈ links) ∧
    sorted_links links limit = (List.insertionSort linkOrder links.dedup).take limit ∧
    (∀ u, hasTimestampPat u = false → extract_ptt_timestamp u = 0) ∧
    sorted_links cexLinks 2 =
      ["https://www.ptt.cc/bbs/Stock/M.300.A.AAA.html".toList,
       "https://www.ptt.cc/bbs/Stock/M.200.A.CCC.html".toList] := by
  refine ⟨?_, List.perm_insertionSort _ _, List.nodup_dedup _,
    fun u => List.mem_dedup, rfl, fun u => extract_eq_zero_of_no_pat u, by decide⟩
  haveI : IsTotal (List Char) linkOrder := ⟨fun a b => Nat.le_total _ _⟩
  haveI : IsTrans (List Char) linkOrder := ⟨fun a b c hab hbc => Nat.le_trans hbc hab⟩
  exact List.sorted_insertionSort _ _

theorem claim_C8_witness :
    sorted_links cexLinks 2 =
      ["https://www.ptt.cc/bbs/Stock/M.300.A.AAA.html".toList,
       "https://www.ptt.cc/bbs/Stock/M.200.A.CCC.html".toList] :=
  (claim_C8 cexLinks 2 (by decide) (by decide)).2.2.2.2.2.2

theorem removeColonSpace_no_occurrence :
    ∀ s : List Char, containsSeq sepCS s = false → removeColonSpace s = s := by
  intro s
  induction s with
  | nil => intro _; rfl
  | cons c rest ih =>
    intro h
    unfold containsSeq at h
    simp only [Bool.or_eq_false_iff] at h
    cases rest with
    | nil => rfl
    | cons c2 rest2 =>
      have hcond : ¬(c = ':' ∧ c2 = ' ') := by
        rintro ⟨rfl, rfl⟩
        have hb := h.1
        simp [sepCS, List.isPrefixOf] at hb
      show (if c = ':' ∧ c2 = ' ' then removeColonSpace rest2
        else c :: removeColonSpace (c2 :: rest2)) = c :: c2 :: rest2
      rw [if_neg hcond, ih h.2]

/-- Claim C2 (counterexample): on a comment content holding the separator
both at the front and in the middle, the code removes both occurrences,
while the claim predicts that only the leading one is stripped and the
inner one preserved. -/
theorem claim_C2_counterexample :
    removeColonSpace (stripWs (':' :: ' ' :: 'A' :: ':' :: ' ' :: 'B' :: [])) = ['A', 'B'] ∧
    specStripLeadingSep (stripWs (':' :: ' ' :: 'A' :: ':' :: ' ' :: 'B' :: [])) =
      ['A', ':', ' ', 'B'] ∧
    (['A', 'B'] : List Char) ≠ ['A', ':', ' ', 'B'] := by
  refine ⟨by decide, by decide, by decide⟩

/-- Claim C2 (amended): the extracted comment text removes every
occurrence of the ": " separator, scanning left to right, not only a
leading one: a leading separator is removed and the removal continues in
the rest, and a content free of the separator passes through unchanged.
An occurrence of ": " later inside the comment text is therefore removed
as well, not preserved. -/
theorem claim_C2_amended (s : List Char) :
    removeColonSpace (sepCS ++ s) = removeColonSpace s ∧
    (containsSeq sepCS s = false → removeColonSpace s = s) := by
  constructor
  · cases s with
    | nil => rfl
    | cons c rest => simp [sepCS, removeColonSpace]
  · exact removeColonSpace_no_occurrence s

theorem claim_C2_witness :
    removeColonSpace (sepCS ++ ('h' :: 'i' :: [])) = removeColonSpace ('h' :: 'i' :: []) ∧
    removeColonSpace ('h' :: 'i' :: []) = 'h' :: 'i' :: [] :=
  ⟨(claim_C2_amended ('h' :: 'i' :: [])).1,
   (claim_C2_amended ('h' :: 'i' :: [])).2 (by decide)⟩

theorem containsChar_append (l1 l2 : List Char) (a : Char) :
    (l1 ++ l2).contains a = (l1.contains a || l2.contains a) := by
  induction l1 with
  | nil => rfl
  | cons c rest ih =>
    simp only [List.cons_append, List.contains_cons, ih, Bool.or_assoc]

theorem noMarkerIn_split (l : List Char) (h : noMarkerIn l = true) :
    l.contains '推' = false ∧ l.contains '噓' = false := by
  unfold noMarkerIn at h
  simp only [Bool.and_eq_true, Bool.not_eq_true'] at h
  exact h

theorem clean_code_eq_spec (p : PushDiv) (hp : cleanBlock p = true) :
    ((divText p).contains '推' = (stripWs (p.tag.getD []) == ['推'])) ∧
    ((divText p).contains '噓' = (stripWs (p.tag.getD []) == ['噓'])) := by
  unfold cleanBlock at hp
  simp only [Bool.and_eq_true, Bool.or_eq_true, beq_iff_eq] at hp
  obtain ⟨⟨⟨htag, hu⟩, hc⟩, hi⟩ := hp
  obtain ⟨hu1, hu2⟩ := noMarkerIn_split _ hu
  obtain ⟨hc1, hc2⟩ := noMarkerIn_split _ hc
  obtain ⟨hi1, hi2⟩ := noMarkerIn_split _ hi
  unfold divText
  rcases htag with (h | h) | h <;>
    (rw [h]
     constructor <;>
       (simp only [Option.getD_some, containsChar_append, hu1, hu2, hc1, hc2, hi1, hi2]
        decide))

/-- Claim C1 (counterexample): the code tallies by substring containment
over the whole block text, not by the leading stance marker: a
neutral-marker block whose comment text mentions 推 is counted as a push,
and a push-marker block whose comment text mentions 噓 is counted in both
tallies. -/
theorem claim_C1_counterexample :
    p_cnt [cexNeutralDiv] = 1 ∧ specLeadPushCount [cexNeutralDiv] = 0 ∧
    p_cnt [cexBothDiv] = 1 ∧ b_cnt [cexBothDiv] = 1 ∧
    specLeadBooCount [cexBothDiv] = 0 := by
  refine ⟨by decide, by decide, by decide, by decide, by decide⟩

/-- Claim C1 (amended): pushCount counts the blocks whose whole text
contains the agree literal anywhere, and booCount those containing the
disagree literal anywhere, so one block can feed both tallies; whenever
the marker literals occur only as the block's own leading tag (tag
exactly one marker, no marker inside userid, content or ip text), the two
tallies coincide with the leading-marker classification, and the
3 agree / 2 disagree / 4 neutral example yields pushCount 3, booCount 2. -/
theorem claim_C1_amended (pushes : List PushDiv)
    (hclean : ∀ p ∈ pushes, cleanBlock p = true) :
    p_cnt pushes = specLeadPushCount pushes ∧
    b_cnt pushes = specLeadBooCount pushes := by
  induction pushes with
  | nil => exact ⟨rfl, rfl⟩
  | cons p rest ih =>
    have hp := hclean p (List.mem_cons_self _ _)
    have hrest := ih (fun q hq => hclean q (List.mem_cons_of_mem _ hq))
    obtain ⟨he1, he2⟩ := clean_code_eq_spec p hp
    unfold p_cnt b_cnt specLeadPushCount specLeadBooCount at hrest ⊢
    rw [List.countP_cons, List.countP_cons, List.countP_cons, List.countP_cons]
    rw [hrest.1, hrest.2, he1, he2]
    exact ⟨rfl, rfl⟩

theorem claim_C1_witness :
    (p_cnt exNinePage = specLeadPushCount exNinePage ∧
     b_cnt exNinePage = specLeadBooCount exNinePage) ∧
    p_cnt exNinePage = 3 ∧ b_cnt exNinePage = 2 :=
  ⟨claim_C1_amended exNinePage (by decide), by decide, by decide⟩

theorem commentLine_eq (p : PushDiv) :
    commentLine p = if completeB p then some (renderComment p) else none := by
  rcases p with ⟨tg, u, ct, ip⟩
  cases tg <;> cases u <;> cases ct <;> rfl

theorem comments_list_eq (pushes : List PushDiv) :
    comments_list pushes = (pushes.filter completeB).map renderComment := by
  unfold comments_list
  induction pushes with
  | nil => rfl
  | cons p rest ih =>
    rw [List.filterMap_cons, List.filter_cons, commentLine_eq]
    by_cases hp : completeB p = true
    · rw [if_pos hp, if_pos hp, List.map_cons, ih]
    · rw [if_neg hp, if_neg hp, ih]

theorem isPrefixOf_append_self (l t : List Char) : l.isPrefixOf (l ++ t) = true := by
  induction l with
  | nil => simp [List.isPrefixOf]
  | cons c rest ih => simp [List.isPrefixOf, ih]

/-- Claim C7: the emitted comment list renders exactly the blocks whose
stance tag, user id and content spans are all present, in page order, so
its length is the number of such complete blocks; a block missing a
required span is skipped without aborting the parse, while a complete
block whose ip/datetime span is absent is kept, rendered with the
No_Time placeholder. -/
theorem claim_C7 (pushes : List PushDiv) :
    comments_list pushes = (pushes.filter completeB).map renderComment ∧
    (comments_list pushes).length = (pushes.filter completeB).length ∧
    (∀ p : PushDiv, completeB p = true → p.ipdatetime = none →
      startsWithSeq ('[' :: noTimeL ++ [']', ' ']) (renderComment p) = true) := by
  refine ⟨comments_list_eq pushes, ?_, ?_⟩
  · rw [comments_list_eq pushes, List.length_map]
  · intro p hcomp hip
    have hct : cleanTime p = noTimeL := by
      unfold cleanTime
      rw [hip]
      exact rfl
    have hre : renderComment p =
        ('[' :: noTimeL ++ [']', ' ']) ++
          (stripWs (p.tag.getD []) ++ (' ' :: stripWs (p.userid.getD [])) ++
            (' ' :: ':' :: ' ' :: removeColonSpace (stripWs (p.content.getD [])))) := by
      unfold renderComment
      rw [hct]
      simp [List.append_assoc]
    unfold startsWithSeq
    rw [hre]
    exact isPrefixOf_append_self _ _

theorem claim_C7_witness :
    comments_list [noTimeDiv, noUserDiv] = [renderComment noTimeDiv] ∧
    startsWithSeq ('[' :: noTimeL ++ [']', ' ']) (renderComment noTimeDiv) = true :=
  ⟨by rw [(claim_C7 [noTimeDiv, noUserDiv]).1]; rfl,
   (claim_C7 []).2.2 noTimeDiv (by decide) rfl⟩

/-! ## RSI boundedness lemmas (claim C6) -/

theorem getD_map_pf (f : PFloat → PFloat) (l : List PFloat) (i : Nat) (h : i < l.length) :
    (l.map f).getD i PFloat.nan = f (l.getD i PFloat.nan) := by
  rw [List.getD_eq_getElem?_getD, List.getD_eq_getElem?_getD, List.getElem?_map,
    List.getElem?_eq_getElem h]
  rfl

theorem getD_zipWith_pf (g : PFloat → PFloat → PFloat) :
    ∀ (xs ys : List PFloat) (i : Nat), i < xs.length → i < ys.length →
      (List.zipWith g xs ys).getD i PFloat.nan =
        g (xs.getD i PFloat.nan) (ys.getD i PFloat.nan) := by
  intro xs
  induction xs with
  | nil => intro ys i h _; simp at h
  | cons x xs ih =>
    intro ys i h1 h2
    cases ys with
    | nil => simp at h2
    | cons y ys =>
      cases i with
      | zero => rfl
      | succ j =>
        simp only [List.length_cons, Nat.succ_lt_succ_iff] at h1 h2
        simpa using ih ys j h1 h2

theorem rollingMean_length (w : Nat) (xs : List PFloat) :
    (rollingMean w xs).length = xs.length := by
  simp [rollingMean]

theorem rollingMean_getD (w : Nat) (xs : List PFloat) (i : Nat) (h : i < xs.length) :
    (rollingMean w xs).getD i PFloat.nan =
      if i + 1 < w then PFloat.nan
      else pfdiv (pfsum ((xs.take (i + 1)).drop (i + 1 - w))) (.num w) := by
  unfold rollingMean
  rw [List.getD_eq_getElem?_getD, List.getElem?_map, List.getElem?_range h]
  rfl

theorem pfsum_nonneg (l : List PFloat) (h : ∀ x ∈ l, ∃ q, x = PFloat.num q ∧ 0 ≤ q) :
    ∃ s, pfsum l = PFloat.num s ∧ 0 ≤ s := by
  induction l with
  | nil => exact ⟨0, rfl, le_refl 0⟩
  | cons x rest ih =>
    obtain ⟨q, hq, hq0⟩ := h x (List.mem_cons_self _ _)
    obtain ⟨s, hs, hs0⟩ := ih (fun y hy => h y (List.mem_cons_of_mem _ hy))
    refine ⟨q + s, ?_, by linarith⟩
    show pfadd x (pfsum rest) = PFloat.num (q + s)
    rw [hq, hs]
    rfl

theorem rollingMean_lastD (w : Nat) (xs : List PFloat) (hw : 1 ≤ w) (hlen : w ≤ xs.length)
    (hmem : ∀ x ∈ xs, ∃ q, x = PFloat.num q ∧ 0 ≤ q) :
    ∃ s, lastD (rollingMean w xs) = PFloat.num s ∧ 0 ≤ s := by
  unfold lastD
  rw [rollingMean_length]
  rw [rollingMean_getD w xs (xs.length - 1) (by omega)]
  rw [if_neg (by omega)]
  obtain ⟨s, hs, hs0⟩ := pfsum_nonneg _
    (fun x hx => hmem x (List.mem_of_mem_take (List.mem_of_mem_drop hx)))
  rw [hs]
  have hw1 : w ≠ 0 := by omega
  have hw0 : ((w : ℚ)) ≠ 0 := by exact_mod_cast hw1
  refine ⟨s / w, ?_, by positivity⟩
  show pfdiv (PFloat.num s) (PFloat.num w) = PFloat.num (s / w)
  simp [pfdiv, hw0]

theorem mem_zipWith_pfsub :
    ∀ (xs ys : List PFloat), (∀ x ∈ xs, ∃ q, x = PFloat.num q) →
      (∀ y ∈ ys, ∃ q, y = PFloat.num q) →
      ∀ z ∈ List.zipWith pfsub xs ys, ∃ q, z = PFloat.num q := by
  intro xs
  induction xs with
  | nil => intro ys _ _ z hz; simp at hz
  | cons x xs ih =>
    intro ys hx hy z hz
    cases ys with
    | nil => simp at hz
    | cons y ys =>
      simp only [List.zipWith_cons_cons, List.mem_cons] at hz
      rcases hz with rfl | hz
      · obtain ⟨a, ha⟩ := hx x (List.mem_cons_self _ _)
        obtain ⟨b, hb⟩ := hy y (List.mem_cons_self _ _)
        exact ⟨a + -b, by rw [ha, hb]; rfl⟩
      · exact ih ys (fun u hu => hx u (List.mem_cons_of_mem _ hu))
          (fun u hu => hy u (List.mem_cons_of_mem _ hu)) z hz

theorem deltaSeries_mem (df : List Bar) :
    ∀ x ∈ deltaSeries df, x = PFloat.nan ∨ ∃ q, x = PFloat.num q := by
  intro x hx
  unfold deltaSeries at hx
  have hcc : ∀ y ∈ closeCol df, ∃ q, y = PFloat.num q := by
    intro y hy
    unfold closeCol at hy
    obtain ⟨b, -, rfl⟩ := List.mem_map.mp hy
    exact ⟨b.close, rfl⟩
  cases hc : closeCol df with
  | nil => rw [hc] at hx; simp [diffList] at hx
  | cons c cs =>
    rw [hc] at hx
    unfold diffList at hx
    rcases List.mem_cons.mp hx with rfl | hx2
    · exact Or.inl rfl
    · refine Or.inr (mem_zipWith_pfsub cs (c :: cs) ?_ ?_ x hx2)
      · intro u hu; exact hcc u (by rw [hc]; exact List.mem_cons_of_mem _ hu)
      · intro u hu; exact hcc u (by rw [hc]; exact hu)

theorem gainRaw_mem (df : List Bar) :
    ∀ x ∈ gainRaw df, ∃ q, x = PFloat.num q ∧ 0 ≤ q := by
  intro x hx
  unfold gainRaw at hx
  obtain ⟨d, hd, rfl⟩ := List.mem_map.mp hx
  rcases deltaSeries_mem df d hd with rfl | ⟨q, rfl⟩
  · exact ⟨0, rfl, le_refl 0⟩
  · by_cases hq : (0 : ℚ) < q
    · rw [if_pos (by simpa [pflt] using hq)]
      exact ⟨q, rfl, le_of_lt hq⟩
    · rw [if_neg (by simpa [pflt] using hq)]
      exact ⟨0, rfl, le_refl 0⟩

theorem lossRaw_mem (df : List Bar) :
    ∀ x ∈ lossRaw df, ∃ q, x = PFloat.num q ∧ 0 ≤ q := by
  intro x hx
  unfold lossRaw at hx
  obtain ⟨d, hd, rfl⟩ := List.mem_map.mp hx
  rcases deltaSeries_mem df d hd with rfl | ⟨q, rfl⟩
  · exact ⟨0, by simp [pflt, pfneg], by norm_num⟩
  · by_cases hq : q < 0
    · rw [if_pos (by simpa [pflt] using hq)]
      exact ⟨-q, rfl, by linarith⟩
    · rw [if_neg (by simpa [pflt] using hq)]
      exact ⟨0, by simp [pfneg], le_refl 0⟩

theorem deltaSeries_length (df : List Bar) : (deltaSeries df).length = df.length := by
  unfold deltaSeries
  have hlc : (closeCol df).length = df.length := by simp [closeCol]
  rw [← hlc]
  cases closeCol df with
  | nil => rfl
  | cons c cs => simp [diffList]

theorem gainRaw_length (df : List Bar) : (gainRaw df).length = df.length := by
  unfold gainRaw
  rw [List.length_map, deltaSeries_length]

theorem lossRaw_length (df : List Bar) : (lossRaw df).length = df.length := by
  unfold lossRaw
  rw [List.length_map, deltaSeries_length]

theorem gainLast_shape (df : List Bar) (h : 20 ≤ df.length) :
    ∃ g, gainLast df = PFloat.num g ∧ 0 ≤ g := by
  unfold gainLast gainMean
  exact rollingMean_lastD 14 (gainRaw df) (by norm_num)
    (by rw [gainRaw_length]; omega) (gainRaw_mem df)

theorem lossLast_shape (df : List Bar) (h : 20 ≤ df.length) :
    ∃ l, lossLast df = PFloat.num l ∧ 0 ≤ l := by
  unfold lossLast lossMean
  exact rollingMean_lastD 14 (lossRaw df) (by norm_num)
    (by rw [lossRaw_length]; omega) (lossRaw_mem df)

theorem rsiLast_eq (df : List Bar) (h : 1 ≤ df.length) :
    rsiLast df =
      pfsub (.num 100)
        (pfdiv (.num 100) (pfadd (.num 1) (pfdiv (gainLast df) (lossLast df)))) := by
  have hG : (gainMean df).length = df.length := by
    unfold gainMean; rw [rollingMean_length, gainRaw_length]
  have hL : (lossMean df).length = df.length := by
    unfold lossMean; rw [rollingMean_length, lossRaw_length]
  have hrs : (rsSeries df).length = df.length := by
    unfold rsSeries; rw [List.length_zipWith, hG, hL, Nat.min_self]
  unfold rsiLast rsiSeries lastD
  rw [List.length_map, hrs]
  rw [getD_map_pf _ _ _ (by omega)]
  unfold rsSeries
  rw [getD_zipWith_pf pfdiv (gainMean df) (lossMean df) (df.length - 1)
    (by omega) (by omega)]
  unfold gainLast lossLast lastD
  rw [hG, hL]

/-- Claim C6 (counterexample): an all-flat 20-bar series satisfies the
20-bar precondition, yet its 14-bar mean gain and mean loss are both 0,
so rs is 0/0 and the reported rsi is nan - not a value in [0, 100]. -/
theorem claim_C6_counterexample :
    flatSeries.length = 20 ∧
    Except.map (fun r => rsiInRange r.rsi)
      (calculate_technical_indicators [] flatSeries) = Except.ok false := by
  constructor
  · rfl
  · with_unfolding_all rfl

/-- Claim C6 (amended): for a series meeting the 20-bar precondition the
reported rsi14 is a finite value in [0, 100] exactly when the 14-bar
rolling mean gain and mean loss are not both zero: with a positive loss
the value lies in [0, 100); with zero loss and positive gain the float
formula evaluates to exactly 100; with gain and loss both zero (a flat
window) rs is 0/0, the rsi is nan, and no value in [0, 100] is produced. -/
theorem claim_C6_amended (df : List Bar) (h20 : 20 ≤ df.length) :
    (rsiInRange (rsiLast df) = true ↔
      ¬(gainLast df = PFloat.num 0 ∧ lossLast df = PFloat.num 0)) ∧
    (∀ (ft : List Char) (r : TechReport),
      calculate_technical_indicators ft df = Except.ok r → r.rsi = rsiLast df) := by
  constructor
  · obtain ⟨g, hg, hg0⟩ := gainLast_shape df h20
    obtain ⟨l, hl, hl0⟩ := lossLast_shape df h20
    rw [rsiLast_eq df (by omega), hg, hl]
    by_cases hlz : l = 0
    · subst hlz
      by_cases hgz : g = 0
      · subst hgz
        simp [pfdiv, pfadd, pfsub, pfneg, rsiInRange]
      · have hgpos : (0 : ℚ) < g := lt_of_le_of_ne hg0 (Ne.symm hgz)
        simp only [pfdiv, pfadd, pfsub, pfneg, rsiInRange, if_pos rfl, if_neg hgz,
          if_pos hgpos]
        norm_num [hgz]
    · have hlpos : (0 : ℚ) < l := lt_of_le_of_ne hl0 (Ne.symm hlz)
      have hq0 : (0 : ℚ) ≤ g / l := div_nonneg hg0 (le_of_lt hlpos)
      have h1pos : (0 : ℚ) < 1 + g / l := by linarith
      have hne : (1 + g / l) ≠ 0 := ne_of_gt h1pos
      have hle : 100 / (1 + g / l) ≤ 100 := by
        rw [div_le_iff h1pos]
        nlinarith
      have hpos : (0 : ℚ) < 100 / (1 + g / l) := by positivity
      simp only [pfdiv, pfadd, pfsub, pfneg, rsiInRange, if_neg hlz, if_neg hne]
      constructor
      · intro _
        rintro ⟨-, hbad⟩
        exact hlz (by simpa using hbad)
      · intro _
        simp only [Bool.and_eq_true, decide_eq_true_eq]
        constructor
        · linarith
        · linarith
  · intro ft r h
    obtain ⟨-, tbar, rest, hrev, hr⟩ := calc_ok_inv h
    subst hr
    cases rest <;> simp [buildReport]

theorem claim_C6_witness :
    (rsiInRange (rsiLast varSeries) = true ↔
      ¬(gainLast varSeries = PFloat.num 0 ∧ lossLast varSeries = PFloat.num 0)) ∧
    rsiInRange (rsiLast varSeries) = true :=
  ⟨(claim_C6_amended varSeries (by decide)).1, by with_unfolding_all decide⟩
